import Mathlib

/-!
Verification of the invoice analysis core of `app.py`:
keyword-based financial-health scoring (`calculate_financial_health`),
strict date/amount extraction and monthly aggregation
(`parse_time_series_expenses`), and trend commentary
(`show_expense_trend_analysis`).

Text is modelled as `List Char`; Python floats are modelled by `ℚ`;
Python `int(...)` on the non-negative risk ratio is `Int.floor`.
-/

namespace InvoiceApp

/-! ### Character and line utilities -/

/-- Leading- and trailing-whitespace trim, as Python `str.strip()`. -/
def trimL (cs : List Char) : List Char :=
  ((cs.dropWhile Char.isWhitespace).reverse.dropWhile Char.isWhitespace).reverse

/-- Lower-casing of a line, as Python `str.lower()` (ASCII letters). -/
def lowerL (cs : List Char) : List Char := cs.map Char.toLower

/-- Split on newline characters, as Python `str.splitlines()` for `\n`
    (the classifier and extractor strip each piece, so boundary empties
    behave identically). -/
def splitLinesL : List Char → List (List Char)
  | [] => [[]]
  | c :: rest =>
    if c = '\n' then [] :: splitLinesL rest
    else
      match splitLinesL rest with
      | [] => [[c]]
      | l :: ls => (c :: l) :: ls

/-- `need` begins `hay`. -/
def startsWithL : List Char → List Char → Bool
  | _, [] => true
  | [], _ :: _ => false
  | a :: as_, b :: bs => a == b && startsWithL as_ bs

/-- `need` occurs contiguously inside `hay`, as Python `need in hay`. -/
def hasSub (hay need : List Char) : Bool :=
  match hay with
  | [] => need.isEmpty
  | _ :: t => startsWithL hay need || hasSub t need

/-! ### Keyword configuration (verbatim from `calculate_financial_health`) -/

def high_risk_keywords : List String :=
  ["coffee", "snack", "entertainment", "delivery", "uber",
   "lunch", "hotel", "flight", "restaurant", "shopping",
   "netflix", "swiggy", "zomato"]

def low_risk_keywords : List String :=
  ["grocery", "utility", "rent", "mortgage", "salary", "tax", "insurance"]

/-- `any(keyword in line for keyword in high_risk_keywords)`. -/
def isHighLine (l : List Char) : Bool :=
  high_risk_keywords.any fun k => hasSub l k.toList

/-- `any(keyword in line for keyword in low_risk_keywords)`. -/
def isLowLine (l : List Char) : Bool :=
  low_risk_keywords.any fun k => hasSub l k.toList

/-- The spec's per-line risk category. -/
inductive Category where
  | highRisk
  | lowRisk
  | neutral
deriving DecidableEq

/-- The `if any(high) ... elif any(low) ... else` branch applied to one
    stripped, lower-cased line. -/
def classifyLine (l : List Char) : Category :=
  if isHighLine l then Category.highRisk
  else if isLowLine l then Category.lowRisk
  else Category.neutral

/-! ### The classifier loop state of `calculate_financial_health` -/

structure HealthState where
  risk_score : ℕ
  low_risk_count : ℕ
  high_risk_count : ℕ
  total_lines : ℕ
  risky_items : List (List Char)
  low_risk_items : List (List Char)
deriving DecidableEq

/-- `line.strip().lower()`. -/
def procLine (raw : List Char) : List Char := lowerL (trimL raw)

/-- One iteration of the `for line in invoice_text.splitlines()` loop. -/
def stepLine (s : HealthState) (raw : List Char) : HealthState :=
  let line := procLine raw
  if line.isEmpty then s
  else if isHighLine line then
    { s with total_lines := s.total_lines + 1,
             risk_score := s.risk_score + 1,
             high_risk_count := s.high_risk_count + 1,
             risky_items := s.risky_items ++ [line] }
  else if isLowLine line then
    { s with total_lines := s.total_lines + 1,
             low_risk_count := s.low_risk_count + 1,
             low_risk_items := s.low_risk_items ++ [line] }
  else { s with total_lines := s.total_lines + 1 }

def healthInit : HealthState := ⟨0, 0, 0, 0, [], []⟩

/-- The classifier loop over the whole invoice text. -/
def healthFold (invoice_text : String) : HealthState :=
  (splitLinesL invoice_text.toList).foldl stepLine healthInit

structure HealthResult where
  score : ℤ
  status : String
  tip : String
  explanation : String
deriving DecidableEq

/-- `calculate_financial_health` (app.py lines 92-158). -/
def calculate_financial_health (invoice_text : String) : HealthResult :=
  let st := healthFold invoice_text
  if st.total_lines = 0 then
    ⟨100, "🟢 Healthy", "No risky spending patterns detected.",
     "No invoice content found to analyze."⟩
  else
    let score : ℤ :=
      max 0 (100 - Int.floor (((st.risk_score : ℚ) / (st.total_lines : ℚ)) * 100))
    let e1 : String :=
      if st.risk_score = 0 then "No high-risk spending detected."
      else "Detected " ++ toString st.high_risk_count ++
           " high-risk spending items: " ++
           String.intercalate ", " (st.risky_items.map fun l => String.mk l) ++ "."
    let e2 : String :=
      if st.low_risk_count = 0 then "No low-risk, essential spending detected."
      else "Detected " ++ toString st.low_risk_count ++
           " low-risk spending items: " ++
           String.intercalate ", " (st.low_risk_items.map fun l => String.mk l) ++ "."
    if st.risk_score > 0 ∧ st.low_risk_count = 0 then
      ⟨score, "🔴 Risky Spending",
       "Consider reducing non-essential expenses like dining out, entertainment, and shopping.",
       e1 ++ "\n" ++ e2⟩
    else if st.risk_score > st.low_risk_count then
      ⟨score, "🟡 Needs Attention",
       "Balance essential and non-essential spending better. Consider cutting down on discretionary spending.",
       e1 ++ "\n" ++ e2⟩
    else
      ⟨score, "🟢 Healthy",
       "Good balance between essential and non-essential expenses.",
       e1 ++ "\n" ++ e2⟩

/-! ### Specification-level views of the classifier -/

/-- The stripped, lower-cased non-empty lines, in order. -/
def neLines (ls : List (List Char)) : List (List Char) :=
  (ls.map procLine).filter fun l => !l.isEmpty

def nonEmptyLines (text : String) : List (List Char) :=
  neLines (splitLinesL text.toList)

/-- Non-empty lines containing a high-risk keyword. -/
def highOf (ls : List (List Char)) : List (List Char) :=
  (neLines ls).filter isHighLine

/-- Non-empty lines containing a low-risk keyword but no high-risk keyword. -/
def lowOf (ls : List (List Char)) : List (List Char) :=
  (neLines ls).filter fun l => !isHighLine l && isLowLine l

def highLines (text : String) : List (List Char) := highOf (splitLinesL text.toList)

def lowLines (text : String) : List (List Char) := lowOf (splitLinesL text.toList)

/-! ### Expense extraction (`parse_time_series_expenses`, app.py lines 44-68) -/

structure MoneyEntry where
  year : ℕ
  month : ℕ
  day : ℕ
  amount : ℚ
deriving DecidableEq

/-- Numeric value of a decimal digit character. -/
def digToNat (c : Char) : ℕ := c.toNat - 48

/-- The `\$(\d+(?:\.\d{2})?)` part of the pattern applied right after `$`:
    a maximal run of digits, then an optional `.` followed by exactly two
    digits (taken greedily when present); the rest of the line is
    unconstrained because `re.match` anchors only at the start. -/
def matchAfterDollar (cs : List Char) : Option ℚ :=
  let ds := cs.takeWhile Char.isDigit
  if ds = [] then none
  else
    let intPart : ℕ := ds.foldl (fun a c => 10 * a + digToNat c) 0
    match cs.drop ds.length with
    | '.' :: a :: b :: _ =>
      if a.isDigit && b.isDigit then
        some ((intPart : ℚ) + ((10 * digToNat a + digToNat b : ℕ) : ℚ) / 100)
      else some (intPart : ℚ)
    | _ => some (intPart : ℚ)

/-- `re.match(r"(\d{4}-\d{2}-\d{2})\s+\$(\d+(?:\.\d{2})?)", line)`:
    start-anchored, so any trailing text after the matched prefix is
    accepted.  Returns the numeric year, month, day and the amount. -/
def matchShape : List Char → Option (ℕ × ℕ × ℕ × ℚ)
  | y1 :: y2 :: y3 :: y4 :: c1 :: m1 :: m2 :: c2 :: d1 :: d2 :: rest =>
    if y1.isDigit && y2.isDigit && y3.isDigit && y4.isDigit && c1 == '-' &&
       m1.isDigit && m2.isDigit && c2 == '-' && d1.isDigit && d2.isDigit then
      if (rest.takeWhile Char.isWhitespace).isEmpty then none
      else
        match rest.dropWhile Char.isWhitespace with
        | '$' :: amtPart =>
          match matchAfterDollar amtPart with
          | some amt =>
            some (10 * (10 * (10 * digToNat y1 + digToNat y2) + digToNat y3) + digToNat y4,
                  10 * digToNat m1 + digToNat m2,
                  10 * digToNat d1 + digToNat d2, amt)
          | none => none
        | _ => none
    else none
  | _ => none

def isLeap (y : ℕ) : Bool := y % 4 = 0 && (y % 100 ≠ 0 || y % 400 = 0)

def daysInMonth (y m : ℕ) : ℕ :=
  if m = 2 then (if isLeap y then 29 else 28)
  else if m = 4 ∨ m = 6 ∨ m = 9 ∨ m = 11 then 30
  else 31

/-- `dateutil.parser.parse` succeeds on a `YYYY-MM-DD` string exactly for
    valid proleptic-Gregorian calendar dates with year ≥ 1; otherwise it
    raises `ValueError`, which the code catches and skips. -/
def validDate (y m d : ℕ) : Bool :=
  1 ≤ y && 1 ≤ m && m ≤ 12 && 1 ≤ d && d ≤ daysInMonth y m

/-- Regex match followed by the `try: date_parse ... except ValueError`
    guard: the line yields an entry only when the date is a real date. -/
def matchExpenseLine (cs : List Char) : Option MoneyEntry :=
  match matchShape cs with
  | some (y, m, d, amt) => if validDate y m d then some ⟨y, m, d, amt⟩ else none
  | none => none

/-- The extraction loop: strip each line, skip empties, collect matches. -/
def extractEntries (text : String) : List MoneyEntry :=
  (splitLinesL text.toList).filterMap fun l =>
    let t := trimL l
    if t.isEmpty then none else matchExpenseLine t

/-! ### Monthly aggregation (pandas `groupby("Month").sum`, sorted keys) -/

structure MonthlyTotal where
  year : ℕ
  month : ℕ
  amount : ℚ
deriving DecidableEq

/-- Chronological order on year-month keys (pandas sorts group keys
    ascending; on zero-padded ISO strings this is lexicographic order). -/
def keyLt (a b : MonthlyTotal) : Prop :=
  a.year < b.year ∨ (a.year = b.year ∧ a.month < b.month)

instance : DecidableRel keyLt := fun a b => by
  unfold keyLt; infer_instance

/-- Insert one entry's amount into the key-sorted monthly table. -/
def insertTotal (y m : ℕ) (a : ℚ) : List MonthlyTotal → List MonthlyTotal
  | [] => [⟨y, m, a⟩]
  | t :: ts =>
    if y = t.year ∧ m = t.month then ⟨t.year, t.month, t.amount + a⟩ :: ts
    else if y < t.year ∨ (y = t.year ∧ m < t.month) then ⟨y, m, a⟩ :: t :: ts
    else t :: insertTotal y m a ts

/-- `df.groupby("Month")["Amount"].sum().reset_index()`: one row per
    distinct year-month, amounts summed, rows sorted by key ascending. -/
def aggregateMonthly (es : List MoneyEntry) : List MonthlyTotal :=
  es.foldl (fun acc e => insertTotal e.year e.month e.amount acc) []

/-- `parse_time_series_expenses`: extraction then monthly aggregation. -/
def parse_time_series_expenses (text : String) : List MonthlyTotal :=
  aggregateMonthly (extractEntries text)

/-- Zero-padded two-digit numeral. -/
def pad2 (n : ℕ) : String := if n < 10 then "0" ++ toString n else toString n

/-- Zero-padded four-digit numeral. -/
def pad4 (n : ℕ) : String :=
  if n < 10 then "000" ++ toString n
  else if n < 100 then "00" ++ toString n
  else if n < 1000 then "0" ++ toString n
  else toString n

/-- The `Month` column string, as `Period("M").astype(str)`: `YYYY-MM`. -/
def monthStr (y m : ℕ) : String := pad4 y ++ "-" ++ pad2 m

/-- The dataframe rows handed to `show_expense_trend_analysis`. -/
def toSeries (l : List MonthlyTotal) : List (String × ℚ) :=
  l.map fun t => (monthStr t.year t.month, t.amount)

/-! ### Trend analysis (`show_expense_trend_analysis`, app.py lines 71-89) -/

/-- `(change / prev) * 100 if prev != 0 else 0` (app.py line 81). -/
def percentOf (prev change : ℚ) : ℚ :=
  if prev ≠ 0 then change / prev * 100 else 0

/-- Round-half-even of `q`, the rounding used by Python's `format(x, ".2f")`
    on exactly-representable values. -/
def rhe (q : ℚ) : ℤ :=
  let f := Int.floor q
  if q - f < 1 / 2 then f
  else if q - f > 1 / 2 then f + 1
  else if f % 2 = 0 then f else f + 1

/-- Python `f"{x:.2f}"` on values whose binary representation is exact. -/
def fmt2 (q : ℚ) : String :=
  let n := rhe (q * 100)
  (if n < 0 then "-" else "") ++ toString (n.natAbs / 100) ++ "." ++ pad2 (n.natAbs % 100)

/-- One trend line of the loop body (app.py lines 78-87). -/
def trendMessage (prevMon : String) (prevAmt : ℚ) (curMon : String) (curAmt : ℚ) :
    String :=
  let change := curAmt - prevAmt
  let percent := percentOf prevAmt change
  if change > 0 then
    "📈 " ++ curMon ++ ": Increase of ₹" ++ fmt2 change ++ " (" ++ fmt2 percent ++
      "%) compared to " ++ prevMon
  else if change < 0 then
    "📉 " ++ curMon ++ ": Decrease of ₹" ++ fmt2 (-change) ++ " (" ++ fmt2 (-percent) ++
      "%) compared to " ++ prevMon
  else
    "➡️ " ++ curMon ++ ": No change compared to " ++ prevMon

/-- The `for i in range(1, len(df))` loop over consecutive rows. -/
def trendMessages : List (String × ℚ) → List String
  | (pm, pa) :: (cm, ca) :: rest =>
    trendMessage pm pa cm ca :: trendMessages ((cm, ca) :: rest)
  | _ => []

/-- `show_expense_trend_analysis`: a warning and no lines when fewer than
    two rows, otherwise one message per consecutive pair. -/
def show_expense_trend_analysis (df : List (String × ℚ)) :
    Option String × List String :=
  if df.length < 2 then (some "Not enough data to determine trends.", [])
  else (none, trendMessages df)

/-! ### Spec-side shape definitions for the extractor -/

/-- Modelled from the spec: the amount part of the spec's whole-line
    ("exact shape") reading of the pattern — digits with zero or exactly
    two fractional digits and nothing after them. -/
def exactShapeAmount (cs : List Char) : Bool :=
  let ds := cs.takeWhile Char.isDigit
  ds ≠ [] &&
    (match cs.drop ds.length with
     | [] => true
     | ['.', a, b] => a.isDigit && b.isDigit
     | _ => false)

/-- Modelled from the spec: the claimed "exact shape" of a matching line —
    the whole trimmed line is `YYYY-MM-DD`, whitespace, `$`, and an amount
    with 0 or 2 fractional digits, with no trailing text. -/
def exactShapeLine : List Char → Bool
  | y1 :: y2 :: y3 :: y4 :: c1 :: m1 :: m2 :: c2 :: d1 :: d2 :: rest =>
    y1.isDigit && y2.isDigit && y3.isDigit && y4.isDigit && c1 == '-' &&
    m1.isDigit && m2.isDigit && c2 == '-' && d1.isDigit && d2.isDigit &&
    !(rest.takeWhile Char.isWhitespace).isEmpty &&
    (match rest.dropWhile Char.isWhitespace with
     | '$' :: amtPart => exactShapeAmount amtPart
     | _ => false)
  | _ => false

/-- The shape the start-anchored regex actually requires: the line *begins*
    with `YYYY-MM-DD`, at least one whitespace character, `$`, and at least
    one digit; anything may follow. -/
def PrefixShape (cs : List Char) : Prop :=
  ∃ (y1 y2 y3 y4 m1 m2 d1 d2 : Char) (ws ds rest : List Char),
    cs = y1 :: y2 :: y3 :: y4 :: '-' :: m1 :: m2 :: '-' :: d1 :: d2 ::
          (ws ++ '$' :: (ds ++ rest)) ∧
    y1.isDigit = true ∧ y2.isDigit = true ∧ y3.isDigit = true ∧ y4.isDigit = true ∧
    m1.isDigit = true ∧ m2.isDigit = true ∧ d1.isDigit = true ∧ d2.isDigit = true ∧
    ws ≠ [] ∧ (∀ c ∈ ws, c.isWhitespace = true) ∧
    ds ≠ [] ∧ (∀ c ∈ ds, c.isDigit = true)

/-! ### Bridging the classifier loop to its specification view -/

theorem neLines_cons (l : List Char) (t : List (List Char)) :
    neLines (l :: t) =
      if (procLine l).isEmpty then neLines t else procLine l :: neLines t := by
  simp only [neLines, List.map_cons, List.filter_cons]
  by_cases h : (procLine l).isEmpty <;> simp [h]

theorem highOf_cons (l : List Char) (t : List (List Char)) :
    highOf (l :: t) =
      if !(procLine l).isEmpty && isHighLine (procLine l) then
        procLine l :: highOf t
      else highOf t := by
  simp only [highOf, neLines_cons]
  by_cases h : (procLine l).isEmpty
  · simp [h]
  · by_cases h2 : isHighLine (procLine l) <;> simp [h, h2, List.filter_cons]

theorem lowOf_cons (l : List Char) (t : List (List Char)) :
    lowOf (l :: t) =
      if !(procLine l).isEmpty && !isHighLine (procLine l) && isLowLine (procLine l) then
        procLine l :: lowOf t
      else lowOf t := by
  simp only [lowOf, neLines_cons]
  by_cases h : (procLine l).isEmpty
  · simp [h]
  · by_cases h2 : isHighLine (procLine l) <;>
      by_cases h3 : isLowLine (procLine l) <;>
        simp [h, h2, h3, List.filter_cons]

theorem foldl_stepLine (ls : List (List Char)) (s : HealthState) :
    ls.foldl stepLine s =
      ⟨s.risk_score + (highOf ls).length,
       s.low_risk_count + (lowOf ls).length,
       s.high_risk_count + (highOf ls).length,
       s.total_lines + (neLines ls).length,
       s.risky_items ++ highOf ls,
       s.low_risk_items ++ lowOf ls⟩ := by
  induction ls generalizing s with
  | nil =>
    simp only [List.foldl_nil, highOf, lowOf, neLines, List.map_nil,
      List.filter_nil, List.length_nil, Nat.add_zero, List.append_nil]
  | cons l t ih =>
    rw [List.foldl_cons, ih]
    rw [neLines_cons, highOf_cons, lowOf_cons]
    by_cases hE : (procLine l).isEmpty
    · simp [stepLine, hE]
    · by_cases hH : isHighLine (procLine l)
      · simp [stepLine, hE, hH, HealthState.mk.injEq, List.append_assoc]; omega
      · by_cases hL : isLowLine (procLine l)
        · simp [stepLine, hE, hH, hL, HealthState.mk.injEq, List.append_assoc]; omega
        · simp [stepLine, hE, hH, hL, HealthState.mk.injEq]; omega

theorem healthFold_eq (text : String) :
    healthFold text =
      ⟨(highLines text).length, (lowLines text).length, (highLines text).length,
       (nonEmptyLines text).length, highLines text, lowLines text⟩ := by
  unfold healthFold healthInit highLines lowLines nonEmptyLines
  rw [foldl_stepLine]
  simp

/-! ### Claim theorems about the health scorer -/

/-- C1: for every input text with at least one non-empty line, the health
    score equals `max 0 (100 − ⌊(highCount / totalNonEmptyLines) · 100⌋)`
    (truncating integer conversion of the non-negative ratio); it is an
    integer in `[0, 100]`, and it is `0` when every non-empty line is
    high-risk. -/
theorem C1_health_score (text : String) (h : nonEmptyLines text ≠ []) :
    (calculate_financial_health text).score =
        max 0 (100 - Int.floor ((((highLines text).length : ℚ) /
          ((nonEmptyLines text).length : ℚ)) * 100)) ∧
      0 ≤ (calculate_financial_health text).score ∧
      (calculate_financial_health text).score ≤ 100 ∧
      ((highLines text).length = (nonEmptyLines text).length →
        (calculate_financial_health text).score = 0) := by
  have hn : ¬((nonEmptyLines text).length = 0) := by
    simpa [List.length_eq_zero] using h
  have hsc : (calculate_financial_health text).score =
      max 0 (100 - Int.floor ((((highLines text).length : ℚ) /
        ((nonEmptyLines text).length : ℚ)) * 100)) := by
    simp only [calculate_financial_health, healthFold_eq]
    rw [if_neg hn]
    split
    · rfl
    · split
      · rfl
      · rfl
  refine ⟨hsc, ?_, ?_, ?_⟩
  · rw [hsc]; exact le_max_left _ _
  · rw [hsc]
    have h0 : (0 : ℚ) ≤ (((highLines text).length : ℚ) /
        ((nonEmptyLines text).length : ℚ)) * 100 := by positivity
    have hf : (0 : ℤ) ≤ Int.floor ((((highLines text).length : ℚ) /
        ((nonEmptyLines text).length : ℚ)) * 100) := Int.floor_nonneg.mpr h0
    omega
  · intro hk
    have hq : ((nonEmptyLines text).length : ℚ) ≠ 0 := by exact_mod_cast hn
    rw [hsc, hk, div_self hq, one_mul]
    norm_num

/-- C1 witness: a concrete all-high-risk text gets score 0. -/
theorem C1_witness :
    (calculate_financial_health "coffee").score = 0 ∧
      0 ≤ (calculate_financial_health "coffee").score := by
  have h := C1_health_score "coffee" (by decide)
  exact ⟨h.2.2.2 (by decide), h.2.1⟩

/-- C5: a text whose lines are all empty or whitespace-only yields the
    fixed all-healthy result, not an error. -/
theorem C5_empty_input (text : String) (h : nonEmptyLines text = []) :
    calculate_financial_health text =
      ⟨100, "🟢 Healthy", "No risky spending patterns detected.",
       "No invoice content found to analyze."⟩ := by
  have hn : (healthFold text).total_lines = 0 := by
    rw [healthFold_eq]; simp [h]
  unfold calculate_financial_health
  rw [if_pos hn]

/-- C5 witness: a concrete whitespace-only text. -/
theorem C5_witness :
    calculate_financial_health "  \n\t \n" =
      ⟨100, "🟢 Healthy", "No risky spending patterns detected.",
       "No invoice content found to analyze."⟩ :=
  C5_empty_input "  \n\t \n" (by decide)

/-- C6: with at least one non-empty line, status and tip follow the ordered
    rules: high>0 and low=0 gives Risky; else high>low gives Needs
    Attention; else (including high=0) Healthy. -/
theorem C6_status_selection (text : String) (h : nonEmptyLines text ≠ []) :
    (0 < (highLines text).length ∧ (lowLines text).length = 0 →
      (calculate_financial_health text).status = "🔴 Risky Spending" ∧
      (calculate_financial_health text).tip =
        "Consider reducing non-essential expenses like dining out, entertainment, and shopping.") ∧
    (¬(0 < (highLines text).length ∧ (lowLines text).length = 0) →
      (lowLines text).length < (highLines text).length →
      (calculate_financial_health text).status = "🟡 Needs Attention" ∧
      (calculate_financial_health text).tip =
        "Balance essential and non-essential spending better. Consider cutting down on discretionary spending.") ∧
    (¬(0 < (highLines text).length ∧ (lowLines text).length = 0) →
      ¬((lowLines text).length < (highLines text).length) →
      (calculate_financial_health text).status = "🟢 Healthy" ∧
      (calculate_financial_health text).tip =
        "Good balance between essential and non-essential expenses.") := by
  have hn : ¬((nonEmptyLines text).length = 0) := by
    simpa [List.length_eq_zero] using h
  refine ⟨fun h1 => ?_, fun h1 h2 => ?_, fun h1 h2 => ?_⟩
  · simp only [calculate_financial_health, healthFold_eq]
    rw [if_neg hn, if_pos h1]
    exact ⟨rfl, rfl⟩
  · simp only [calculate_financial_health, healthFold_eq]
    rw [if_neg hn, if_neg h1, if_pos h2]
    exact ⟨rfl, rfl⟩
  · simp only [calculate_financial_health, healthFold_eq]
    rw [if_neg hn, if_neg h1, if_neg h2]
    exact ⟨rfl, rfl⟩

/-- C6 witness: the three rules at concrete inputs. -/
theorem C6_witness :
    (calculate_financial_health "coffee").status = "🔴 Risky Spending" ∧
      (calculate_financial_health "coffee\nswiggy\nrent").status = "🟡 Needs Attention" ∧
      (calculate_financial_health "rent").status = "🟢 Healthy" :=
  ⟨((C6_status_selection "coffee" (by decide)).1 (by decide)).1,
   ((C6_status_selection "coffee\nswiggy\nrent" (by decide)).2.1 (by decide) (by decide)).1,
   ((C6_status_selection "rent" (by decide)).2.2 (by decide) (by decide)).1⟩

/-- C7: the high-risk check precedes the low-risk check — a non-empty line
    containing a high-risk keyword is classified high-risk however many
    low-risk keywords it contains, lands in the risky list, never in the
    low-risk list, and makes the high count positive. -/
theorem C7_high_precedence (text : String) (l : List Char)
    (hmem : l ∈ nonEmptyLines text)
    (hhigh : ∃ k ∈ high_risk_keywords, hasSub l k.toList = true) :
    classifyLine l = Category.highRisk ∧
      l ∈ (healthFold text).risky_items ∧
      l ∉ (healthFold text).low_risk_items ∧
      0 < (healthFold text).high_risk_count := by
  have hH : isHighLine l = true := by
    unfold isHighLine
    exact List.any_eq_true.mpr hhigh
  have hmemHigh : l ∈ highLines text := List.mem_filter.mpr ⟨hmem, hH⟩
  refine ⟨?_, ?_, ?_, ?_⟩
  · unfold classifyLine
    rw [if_pos hH]
  · rw [healthFold_eq]
    exact hmemHigh
  · rw [healthFold_eq]
    intro hmemLow
    have := (List.mem_filter.mp hmemLow).2
    simp [hH] at this
  · rw [healthFold_eq]
    exact List.length_pos.mpr (List.ne_nil_of_mem hmemHigh)

/-- C7 witness: a line containing both "coffee" (high) and "rent" (low). -/
theorem C7_witness :
    classifyLine ("coffee and rent".toList) = Category.highRisk ∧
      0 < (healthFold "coffee and rent").high_risk_count := by
  have h := C7_high_precedence "coffee and rent" ("coffee and rent".toList)
    (by decide) ⟨"coffee", by decide, by decide⟩
  exact ⟨h.1, h.2.2.2⟩

/-- C9 counterexample: the reported line texts are the trimmed, lower-cased
    lines, not the verbatim input lines — for the single line
    "COFFEE Purchase" the explanation contains "coffee purchase" and does
    not contain the verbatim line text at all. -/
theorem C9_counterexample :
    (calculate_financial_health "COFFEE Purchase").explanation =
      "Detected 1 high-risk spending items: coffee purchase.\nNo low-risk, essential spending detected." ∧
      hasSub ((calculate_financial_health "COFFEE Purchase").explanation.toList)
        ("COFFEE Purchase".toList) = false := by
  constructor
  · decide
  · decide

/-- C9 (amended): for inputs with at least one non-empty line, the
    explanation is two lines — the high-risk count with the list of
    high-risk line texts (or the fixed no-high-risk sentence), then the
    analogous low-risk summary — where the listed texts are the trimmed,
    lower-cased forms of the lines (the same case-folded strings used for
    matching), not the verbatim originals. -/
theorem C9_explanation (text : String) (h : nonEmptyLines text ≠ []) :
    (calculate_financial_health text).explanation =
      (if (highLines text).length = 0 then "No high-risk spending detected."
       else "Detected " ++ toString (highLines text).length ++
            " high-risk spending items: " ++
            String.intercalate ", " ((highLines text).map fun l => String.mk l) ++ ".") ++
      "\n" ++
      (if (lowLines text).length = 0 then "No low-risk, essential spending detected."
       else "Detected " ++ toString (lowLines text).length ++
            " low-risk spending items: " ++
            String.intercalate ", " ((lowLines text).map fun l => String.mk l) ++ ".") := by
  have hn : ¬((nonEmptyLines text).length = 0) := by
    simpa [List.length_eq_zero] using h
  simp only [calculate_financial_health, healthFold_eq]
  rw [if_neg hn]
  split
  · rfl
  · split
    · rfl
    · rfl

/-- C9 witness: the two-line explanation at a concrete mixed input. -/
theorem C9_witness :
    (calculate_financial_health "Coffee\nRENT").explanation =
      "Detected 1 high-risk spending items: coffee.\nDetected 1 low-risk spending items: rent." := by
  have h := C9_explanation "Coffee\nRENT" (by decide)
  rw [h]
  decide

/-! ### The extractor's matched prefix -/

theorem mem_takeWhile_sat (p : Char → Bool) (l : List Char) :
    ∀ c ∈ l.takeWhile p, p c = true := by
  induction l with
  | nil => intro c hc; simp [List.takeWhile] at hc
  | cons a t ih =>
    intro c hc
    rw [List.takeWhile_cons] at hc
    by_cases h : p a
    · rw [if_pos h] at hc
      rcases List.mem_cons.mp hc with rfl | hc
      · exact h
      · exact ih c hc
    · rw [if_neg h] at hc
      simp at hc

theorem takeWhile_drop_self (p : Char → Bool) (l : List Char) :
    l.takeWhile p ++ l.drop (l.takeWhile p).length = l := by
  induction l with
  | nil => rfl
  | cons a t ih =>
    rw [List.takeWhile_cons]
    by_cases h : p a
    · rw [if_pos h]; simpa using ih
    · rw [if_neg h]; rfl

theorem takeWhile_append_all (p : Char → Bool) (ws l : List Char)
    (h : ∀ c ∈ ws, p c = true) :
    (ws ++ l).takeWhile p = ws ++ l.takeWhile p := by
  induction ws with
  | nil => rfl
  | cons a t ih =>
    rw [List.cons_append, List.takeWhile_cons, if_pos (h a (List.mem_cons_self a t))]
    rw [ih fun c hc => h c (List.mem_cons_of_mem a hc)]
    rfl

theorem dropWhile_append_all (p : Char → Bool) (ws l : List Char)
    (h : ∀ c ∈ ws, p c = true) :
    (ws ++ l).dropWhile p = l.dropWhile p := by
  induction ws with
  | nil => rfl
  | cons a t ih =>
    rw [List.cons_append, List.dropWhile_cons_of_pos (h a (List.mem_cons_self a t))]
    exact ih fun c hc => h c (List.mem_cons_of_mem a hc)

theorem drop_length_takeWhile (p : Char → Bool) (l : List Char) :
    l.drop (l.takeWhile p).length = l.dropWhile p := by
  induction l with
  | nil => rfl
  | cons a t ih =>
    rw [List.takeWhile_cons]
    by_cases h : p a
    · rw [if_pos h, List.dropWhile_cons_of_pos h, List.length_cons, List.drop_succ_cons]
      exact ih
    · rw [if_neg h, List.dropWhile_cons_of_neg h]
      rfl

theorem matchAfterDollar_isSome_of (ds rest : List Char) (hne : ds ≠ [])
    (hds : ∀ c ∈ ds, c.isDigit = true) :
    (matchAfterDollar (ds ++ rest)).isSome = true := by
  unfold matchAfterDollar
  rw [takeWhile_append_all Char.isDigit ds rest hds]
  have hcond : ¬(ds ++ rest.takeWhile Char.isDigit = []) := by
    intro h0
    exact hne (List.append_eq_nil.mp h0).1
  rw [if_neg hcond]
  split
  · split
    · rfl
    · rfl
  · rfl

/-- Anything produced by the regex prefix match has the prefix shape. -/
theorem matchShape_isSome_imp (cs : List Char)
    (hm : (matchShape cs).isSome = true) : PrefixShape cs := by
  unfold matchShape at hm
  split at hm
  case h_2 => simp at hm
  case h_1 y1 y2 y3 y4 c1 m1 m2 c2 d1 d2 rest =>
    split at hm
    case isFalse => simp at hm
    case isTrue hguard =>
      simp only [Bool.and_eq_true, beq_iff_eq] at hguard
      obtain ⟨⟨⟨⟨⟨⟨⟨⟨⟨hy1, hy2⟩, hy3⟩, hy4⟩, hc1⟩, hm1⟩, hm2⟩, hc2⟩, hd1⟩, hd2⟩ := hguard
      subst hc1
      subst hc2
      split at hm
      case isTrue => simp at hm
      case isFalse hwsne =>
        revert hm
        split
        case h_2 => intro hm; simp at hm
        case h_1 amtPart heq =>
          intro hm
          have hrest : rest = rest.takeWhile Char.isWhitespace ++ '$' :: amtPart := by
            have h2 := takeWhile_drop_self Char.isWhitespace rest
            rw [drop_length_takeWhile Char.isWhitespace rest, heq] at h2
            exact h2.symm
          revert hm
          split
          case h_2 => intro hm; simp at hm
          case h_1 amt hamt =>
            intro _
            have hdsne : ¬(amtPart.takeWhile Char.isDigit = []) := by
              intro h0
              unfold matchAfterDollar at hamt
              rw [if_pos h0] at hamt
              exact Option.noConfusion hamt
            refine ⟨y1, y2, y3, y4, m1, m2, d1, d2,
              rest.takeWhile Char.isWhitespace,
              amtPart.takeWhile Char.isDigit,
              amtPart.drop (amtPart.takeWhile Char.isDigit).length,
              ?_, hy1, hy2, hy3, hy4, hm1, hm2, hd1, hd2, ?_, ?_, hdsne, ?_⟩
            · rw [takeWhile_drop_self Char.isDigit amtPart]
              rw [← hrest]
            · intro h0
              rw [h0] at hwsne
              exact hwsne rfl
            · exact mem_takeWhile_sat Char.isWhitespace rest
            · exact mem_takeWhile_sat Char.isDigit amtPart

/-- Any line with the prefix shape is matched by the regex prefix match. -/
theorem matchShape_isSome_of (cs : List Char) (hp : PrefixShape cs) :
    (matchShape cs).isSome = true := by
  obtain ⟨y1, y2, y3, y4, m1, m2, d1, d2, ws, ds, rest, hcs,
    hy1, hy2, hy3, hy4, hm1, hm2, hd1, hd2, hws, hwsall, hds, hdsall⟩ := hp
  subst hcs
  simp only [matchShape]
  rw [if_pos (by simp [hy1, hy2, hy3, hy4, hm1, hm2, hd1, hd2])]
  have htw : (ws ++ '$' :: (ds ++ rest)).takeWhile Char.isWhitespace = ws := by
    rw [takeWhile_append_all Char.isWhitespace ws _ hwsall]
    rw [List.takeWhile_cons_of_neg (by decide)]
    simp
  have hdw : (ws ++ '$' :: (ds ++ rest)).dropWhile Char.isWhitespace =
      '$' :: (ds ++ rest) := by
    rw [dropWhile_append_all Char.isWhitespace ws _ hwsall]
    exact List.dropWhile_cons_of_neg (by decide)
  rw [if_neg (by rw [htw]; cases ws with
    | nil => exact absurd rfl hws
    | cons a t => simp)]
  rw [hdw]
  show (match matchAfterDollar (ds ++ rest) with
        | some amt =>
          some (10 * (10 * (10 * digToNat y1 + digToNat y2) + digToNat y3) + digToNat y4,
                10 * digToNat m1 + digToNat m2,
                10 * digToNat d1 + digToNat d2, amt)
        | none => none).isSome = true
  obtain ⟨amt, hamt⟩ :=
    Option.isSome_iff_exists.mp (matchAfterDollar_isSome_of ds rest hds hdsall)
  rw [hamt]
  rfl

/-- C2 counterexample: the claimed whole-line "exact shape" is wrong —
    a line with trailing text after a valid date-amount prefix does not
    have the exact shape, yet the extractor produces an entry from it. -/
theorem C2_counterexample :
    exactShapeLine (trimL ("2025-01-15 $100.00 extra".toList)) = false ∧
      extractEntries "2025-01-15 $100.00 extra" = [⟨2025, 1, 15, 100⟩] := by
  constructor
  · decide
  · simp +decide only [extractEntries, splitLinesL, trimL, matchExpenseLine,
      matchShape, matchAfterDollar, digToNat, validDate, daysInMonth, isLeap,
      List.filterMap, List.foldl, List.takeWhile, List.dropWhile]
    simp [Char.reduceToNat]

/-- C2 (amended): the pattern is anchored only at the start of the trimmed
    line — the regex matches exactly the lines that *begin* with
    `YYYY-MM-DD`, whitespace, `$` and at least one digit, with arbitrary
    trailing text ignored; a one-digit fraction drops the fraction rather
    than the line, and a line such as "not a date $12" still never
    matches. -/
theorem C2_prefix_extraction :
    (∀ cs : List Char, (matchShape cs).isSome = true ↔ PrefixShape cs) ∧
      extractEntries "not a date $12" = [] ∧
      extractEntries "2025-01-15 $100.00 extra\nnot a date $12\n2025-03-01 $7.5" =
        [⟨2025, 1, 15, 100⟩, ⟨2025, 3, 1, 7⟩] := by
  refine ⟨fun cs => ⟨matchShape_isSome_imp cs, matchShape_isSome_of cs⟩, by decide, ?_⟩
  simp +decide only [extractEntries, splitLinesL, trimL, matchExpenseLine,
    matchShape, matchAfterDollar, digToNat, validDate, daysInMonth, isLeap,
    List.filterMap, List.foldl, List.takeWhile, List.dropWhile]
  simp [Char.reduceToNat]

/-! ### Aggregation lemmas -/

/-- Per-key amount in the aggregated table. -/
def amountAt (y m : ℕ) : List MonthlyTotal → ℚ
  | [] => 0
  | t :: ts => (if t.year = y ∧ t.month = m then t.amount else 0) + amountAt y m ts

/-- Per-key amount contributed by the extracted entries. -/
def entryAmount (y m : ℕ) : List MoneyEntry → ℚ
  | [] => 0
  | e :: es => (if e.year = y ∧ e.month = m then e.amount else 0) + entryAmount y m es

theorem keyLt_trans {a b c : MonthlyTotal} (h1 : keyLt a b) (h2 : keyLt b c) :
    keyLt a c := by
  unfold keyLt at h1 h2 ⊢
  omega

theorem mem_insertTotal (y m : ℕ) (a : ℚ) (l : List MonthlyTotal)
    (b : MonthlyTotal) (hb : b ∈ insertTotal y m a l) :
    (b.year = y ∧ b.month = m) ∨ ∃ u ∈ l, b.year = u.year ∧ b.month = u.month := by
  induction l with
  | nil =>
    simp [insertTotal] at hb
    subst hb
    exact Or.inl ⟨rfl, rfl⟩
  | cons t ts ih =>
    unfold insertTotal at hb
    by_cases h1 : y = t.year ∧ m = t.month
    · rw [if_pos h1] at hb
      rcases List.mem_cons.mp hb with rfl | hb2
      · exact Or.inr ⟨t, List.mem_cons_self t ts, rfl, rfl⟩
      · exact Or.inr ⟨b, List.mem_cons_of_mem t hb2, rfl, rfl⟩
    · rw [if_neg h1] at hb
      by_cases h2 : y < t.year ∨ (y = t.year ∧ m < t.month)
      · rw [if_pos h2] at hb
        rcases List.mem_cons.mp hb with rfl | hb2
        · exact Or.inl ⟨rfl, rfl⟩
        · rcases List.mem_cons.mp hb2 with rfl | hb3
          · exact Or.inr ⟨b, List.mem_cons_self b ts, rfl, rfl⟩
          · exact Or.inr ⟨b, List.mem_cons_of_mem t hb3, rfl, rfl⟩
      · rw [if_neg h2] at hb
        rcases List.mem_cons.mp hb with rfl | hb2
        · exact Or.inr ⟨b, List.mem_cons_self b ts, rfl, rfl⟩
        · rcases ih hb2 with h | ⟨u, hu, hk⟩
          · exact Or.inl h
          · exact Or.inr ⟨u, List.mem_cons_of_mem t hu, hk⟩

theorem pairwise_insertTotal (y m : ℕ) (a : ℚ) (l : List MonthlyTotal)
    (hl : l.Pairwise keyLt) : (insertTotal y m a l).Pairwise keyLt := by
  induction l with
  | nil => simp [insertTotal]
  | cons t ts ih =>
    rw [List.pairwise_cons] at hl
    obtain ⟨ht, hts⟩ := hl
    unfold insertTotal
    by_cases h1 : y = t.year ∧ m = t.month
    · rw [if_pos h1]
      rw [List.pairwise_cons]
      refine ⟨fun b hb => ?_, hts⟩
      have := ht b hb
      unfold keyLt at this ⊢
      simpa using this
    · rw [if_neg h1]
      by_cases h2 : y < t.year ∨ (y = t.year ∧ m < t.month)
      · rw [if_pos h2]
        rw [List.pairwise_cons]
        refine ⟨fun b hb => ?_, List.pairwise_cons.mpr ⟨ht, hts⟩⟩
        rcases List.mem_cons.mp hb with rfl | hb2
        · unfold keyLt
          simpa using h2
        · refine keyLt_trans (a := ⟨y, m, a⟩) (b := t) ?_ (ht b hb2)
          unfold keyLt
          simpa using h2
      · rw [if_neg h2]
        rw [List.pairwise_cons]
        refine ⟨fun b hb => ?_, ih hts⟩
        rcases mem_insertTotal y m a ts b hb with hk | ⟨u, hu, hk⟩
        · unfold keyLt
          rw [hk.1, hk.2]
          push_neg at h1 h2
          omega
        · have := ht u hu
          unfold keyLt at this ⊢
          rw [hk.1, hk.2]
          exact this

theorem amountAt_insertTotal (y m y' m' : ℕ) (a : ℚ) (l : List MonthlyTotal) :
    amountAt y m (insertTotal y' m' a l) =
      amountAt y m l + (if y' = y ∧ m' = m then a else 0) := by
  induction l with
  | nil =>
    simp only [insertTotal, amountAt]
    by_cases h : y' = y ∧ m' = m
    · rw [if_pos h]
      ring
    · rw [if_neg h]
  | cons t ts ih =>
    unfold insertTotal
    by_cases h1 : y' = t.year ∧ m' = t.month
    · rw [if_pos h1]
      dsimp only [amountAt]
      rw [h1.1, h1.2]
      by_cases h2 : t.year = y ∧ t.month = m
      · rw [if_pos h2, if_pos h2, if_pos h2]
        ring
      · rw [if_neg h2, if_neg h2, if_neg h2]
        ring
    · rw [if_neg h1]
      by_cases h2 : y' < t.year ∨ (y' = t.year ∧ m' < t.month)
      · rw [if_pos h2]
        dsimp only [amountAt]
        ring
      · rw [if_neg h2]
        dsimp only [amountAt]
        rw [ih]
        ring

theorem entryAmount_append (y m : ℕ) (es : List MoneyEntry) (e : MoneyEntry) :
    entryAmount y m (es ++ [e]) =
      entryAmount y m es + (if e.year = y ∧ e.month = m then e.amount else 0) := by
  induction es with
  | nil =>
    dsimp only [entryAmount, List.nil_append]
    ring
  | cons f fs ih =>
    dsimp only [entryAmount, List.cons_append]
    rw [ih]
    ring

theorem aggregateMonthly_append (es : List MoneyEntry) (e : MoneyEntry) :
    aggregateMonthly (es ++ [e]) =
      insertTotal e.year e.month e.amount (aggregateMonthly es) := by
  unfold aggregateMonthly
  rw [List.foldl_append]
  rfl

theorem amountAt_aggregate (es : List MoneyEntry) (y m : ℕ) :
    amountAt y m (aggregateMonthly es) = entryAmount y m es := by
  induction es using List.reverseRecOn with
  | nil => rfl
  | append_singleton es e ih =>
    rw [aggregateMonthly_append, amountAt_insertTotal, ih, entryAmount_append]

theorem pairwise_aggregate (es : List MoneyEntry) :
    (aggregateMonthly es).Pairwise keyLt := by
  induction es using List.reverseRecOn with
  | nil => exact List.Pairwise.nil
  | append_singleton es e ih =>
    rw [aggregateMonthly_append]
    exact pairwise_insertTotal e.year e.month e.amount _ ih

theorem amountAt_eq_zero (y m : ℕ) (l : List MonthlyTotal)
    (h : ∀ b ∈ l, ¬(b.year = y ∧ b.month = m)) : amountAt y m l = 0 := by
  induction l with
  | nil => rfl
  | cons t ts ih =>
    dsimp only [amountAt]
    rw [if_neg (h t (List.mem_cons_self t ts)),
      ih fun b hb => h b (List.mem_cons_of_mem t hb)]
    ring

theorem amountAt_eq_of_mem (l : List MonthlyTotal) (hl : l.Pairwise keyLt)
    (t : MonthlyTotal) (ht : t ∈ l) : amountAt t.year t.month l = t.amount := by
  induction l with
  | nil => cases ht
  | cons u us ih =>
    rw [List.pairwise_cons] at hl
    obtain ⟨hu, hus⟩ := hl
    rcases List.mem_cons.mp ht with rfl | ht'
    · have hzero : amountAt t.year t.month us = 0 := by
        refine amountAt_eq_zero t.year t.month us fun b hb => ?_
        have := hu b hb
        unfold keyLt at this
        omega
      dsimp only [amountAt]
      rw [if_pos ⟨rfl, rfl⟩, hzero]
      ring
    · have hne : ¬(u.year = t.year ∧ u.month = t.month) := by
        have := hu t ht'
        unfold keyLt at this
        omega
      dsimp only [amountAt]
      rw [if_neg hne, ih hus ht']
      ring

theorem mem_key_insertTotal (y m y' m' : ℕ) (a : ℚ) (l : List MonthlyTotal) :
    (∃ t ∈ insertTotal y' m' a l, t.year = y ∧ t.month = m) ↔
      ((y' = y ∧ m' = m) ∨ ∃ u ∈ l, u.year = y ∧ u.month = m) := by
  induction l with
  | nil =>
    simp [insertTotal]
  | cons t ts ih =>
    unfold insertTotal
    by_cases h1 : y' = t.year ∧ m' = t.month
    · rw [if_pos h1]
      constructor
      · intro ⟨b, hb, hk⟩
        rcases List.mem_cons.mp hb with rfl | hb2
        · exact Or.inr ⟨t, List.mem_cons_self t ts, hk⟩
        · exact Or.inr ⟨b, List.mem_cons_of_mem t hb2, hk⟩
      · intro h
        rcases h with hk | ⟨u, hu, hk⟩
        · exact ⟨⟨t.year, t.month, t.amount + a⟩, List.mem_cons_self _ _,
            by rw [← h1.1, ← h1.2]; exact hk⟩
        · rcases List.mem_cons.mp hu with heq | hu2
          · rw [heq] at hk
            exact ⟨⟨t.year, t.month, t.amount + a⟩, List.mem_cons_self _ _, hk⟩
          · exact ⟨u, List.mem_cons_of_mem _ hu2, hk⟩
    · rw [if_neg h1]
      by_cases h2 : y' < t.year ∨ (y' = t.year ∧ m' < t.month)
      · rw [if_pos h2]
        constructor
        · intro ⟨b, hb, hk⟩
          rcases List.mem_cons.mp hb with rfl | hb2
          · exact Or.inl hk
          · exact Or.inr ⟨b, hb2, hk⟩
        · intro h
          rcases h with hk | ⟨u, hu, hk⟩
          · exact ⟨⟨y', m', a⟩, List.mem_cons_self _ _, hk⟩
          · exact ⟨u, List.mem_cons_of_mem _ hu, hk⟩
      · rw [if_neg h2]
        constructor
        · intro ⟨b, hb, hk⟩
          rcases List.mem_cons.mp hb with rfl | hb2
          · exact Or.inr ⟨b, List.mem_cons_self b ts, hk⟩
          · rcases ih.mp ⟨b, hb2, hk⟩ with hk2 | ⟨u, hu, hk2⟩
            · exact Or.inl hk2
            · exact Or.inr ⟨u, List.mem_cons_of_mem t hu, hk2⟩
        · intro h
          rcases h with hk | ⟨u, hu, hk⟩
          · obtain ⟨b, hb, hk2⟩ := ih.mpr (Or.inl hk)
            exact ⟨b, List.mem_cons_of_mem t hb, hk2⟩
          · rcases List.mem_cons.mp hu with rfl | hu2
            · exact ⟨u, List.mem_cons_self u _, hk⟩
            · obtain ⟨b, hb, hk2⟩ := ih.mpr (Or.inr ⟨u, hu2, hk⟩)
              exact ⟨b, List.mem_cons_of_mem t hb, hk2⟩

theorem mem_key_aggregate (es : List MoneyEntry) (y m : ℕ) :
    (∃ t ∈ aggregateMonthly es, t.year = y ∧ t.month = m) ↔
      ∃ e ∈ es, e.year = y ∧ e.month = m := by
  induction es using List.reverseRecOn with
  | nil => simp [aggregateMonthly]
  | append_singleton es e ih =>
    rw [aggregateMonthly_append, mem_key_insertTotal, ih]
    constructor
    · intro h
      rcases h with hk | ⟨u, hu, hk⟩
      · exact ⟨e, by simp, hk⟩
      · exact ⟨u, by simp [hu], hk⟩
    · intro ⟨u, hu, hk⟩
      rcases List.mem_append.mp hu with hu2 | hu2
      · exact Or.inr ⟨u, hu2, hk⟩
      · rcases List.mem_cons.mp hu2 with rfl | hu3
        · exact Or.inl hk
        · cases hu3

/-! ### Non-negativity of extracted amounts -/

theorem matchAfterDollar_nonneg (cs : List Char) (q : ℚ)
    (h : matchAfterDollar cs = some q) : 0 ≤ q := by
  simp only [matchAfterDollar] at h
  split at h
  · exact Option.noConfusion h
  · split at h
    · split at h
      · rw [Option.some.injEq] at h
        subst h
        positivity
      · rw [Option.some.injEq] at h
        subst h
        positivity
    · rw [Option.some.injEq] at h
      subst h
      positivity

theorem matchShape_amount_nonneg (cs : List Char) (y m d : ℕ) (q : ℚ)
    (h : matchShape cs = some (y, m, d, q)) : 0 ≤ q := by
  unfold matchShape at h
  split at h
  · split at h
    · split at h
      · exact Option.noConfusion h
      · split at h
        case h_1 amtPart heq =>
          split at h
          case h_1 amt hamt =>
            rw [Option.some.injEq] at h
            have hq : q = amt := by
              have := congrArg (fun x => x.2.2.2) h
              exact this.symm
            rw [hq]
            exact matchAfterDollar_nonneg _ _ hamt
          case h_2 => exact Option.noConfusion h
        case h_2 => exact Option.noConfusion h
    · exact Option.noConfusion h
  · exact Option.noConfusion h

theorem matchExpenseLine_nonneg (cs : List Char) (e : MoneyEntry)
    (h : matchExpenseLine cs = some e) : 0 ≤ e.amount := by
  unfold matchExpenseLine at h
  split at h
  case h_1 y m d amt heq =>
    split at h
    · rw [Option.some.injEq] at h
      subst h
      exact matchShape_amount_nonneg cs y m d amt heq
    · exact Option.noConfusion h
  case h_2 => exact Option.noConfusion h

theorem extractEntries_nonneg (text : String) :
    ∀ e ∈ extractEntries text, 0 ≤ e.amount := by
  intro e he
  unfold extractEntries at he
  obtain ⟨l, _, hl⟩ := List.mem_filterMap.mp he
  by_cases hE : (trimL l).isEmpty
  · rw [if_pos hE] at hl
    exact Option.noConfusion hl
  · rw [if_neg hE] at hl
    exact matchExpenseLine_nonneg (trimL l) e hl

theorem insertTotal_nonneg (y m : ℕ) (a : ℚ) (l : List MonthlyTotal)
    (ha : 0 ≤ a) (hl : ∀ t ∈ l, 0 ≤ t.amount) :
    ∀ t ∈ insertTotal y m a l, 0 ≤ t.amount := by
  induction l with
  | nil =>
    intro t ht
    simp [insertTotal] at ht
    subst ht
    exact ha
  | cons u us ih =>
    intro t ht
    unfold insertTotal at ht
    by_cases h1 : y = u.year ∧ m = u.month
    · rw [if_pos h1] at ht
      rcases List.mem_cons.mp ht with rfl | ht2
      · have := hl u (List.mem_cons_self u us)
        dsimp only
        positivity
      · exact hl t (List.mem_cons_of_mem u ht2)
    · rw [if_neg h1] at ht
      by_cases h2 : y < u.year ∨ (y = u.year ∧ m < u.month)
      · rw [if_pos h2] at ht
        rcases List.mem_cons.mp ht with rfl | ht2
        · exact ha
        · exact hl t ht2
      · rw [if_neg h2] at ht
        rcases List.mem_cons.mp ht with rfl | ht2
        · exact hl t (List.mem_cons_self t us)
        · exact ih (fun v hv => hl v (List.mem_cons_of_mem u hv)) t ht2

theorem aggregate_nonneg (es : List MoneyEntry)
    (h : ∀ e ∈ es, 0 ≤ e.amount) :
    ∀ t ∈ aggregateMonthly es, 0 ≤ t.amount := by
  induction es using List.reverseRecOn with
  | nil => intro t ht; cases ht
  | append_singleton es e ih =>
    rw [aggregateMonthly_append]
    exact insertTotal_nonneg e.year e.month e.amount _
      (h e (by simp))
      (ih fun f hf => h f (by simp [hf]))

/-! ### Claim theorems about extraction, aggregation and amounts -/

/-- C8: the concrete round-trip — the two lines "2025-01-15 $100.00" and
    "2025-01-20 $50.00" aggregate to the single row (2025-01, 150) — and in
    general the output rows are strictly sorted by year-month key, each
    row's amount is the sum of the amounts of the extracted entries of that
    month, and every extracted entry's month has a row. -/
theorem C8_roundtrip :
    (parse_time_series_expenses "2025-01-15 $100.00\n2025-01-20 $50.00" =
        [⟨2025, 1, 150⟩] ∧ monthStr 2025 1 = "2025-01") ∧
      (∀ text : String, (parse_time_series_expenses text).Pairwise keyLt) ∧
      (∀ text : String, ∀ t ∈ parse_time_series_expenses text,
        t.amount = entryAmount t.year t.month (extractEntries text)) ∧
      (∀ text : String, ∀ e ∈ extractEntries text,
        ∃ t ∈ parse_time_series_expenses text, t.year = e.year ∧ t.month = e.month) := by
  refine ⟨⟨?_, by decide⟩, fun text => pairwise_aggregate _, fun text t ht => ?_, ?_⟩
  · simp +decide only [parse_time_series_expenses, extractEntries, splitLinesL, trimL,
      matchExpenseLine, matchShape, matchAfterDollar, digToNat, validDate, daysInMonth,
      isLeap, aggregateMonthly, insertTotal, List.filterMap, List.foldl,
      List.takeWhile, List.dropWhile]
    simp [Char.reduceToNat]
    norm_num
  · rw [← amountAt_aggregate]
    exact (amountAt_eq_of_mem _ (pairwise_aggregate _) t ht).symm
  · intro text e he
    exact (mem_key_aggregate (extractEntries text) e.year e.month).mpr
      ⟨e, he, rfl, rfl⟩

/-- C8 witness: the general row-sum property applied to the concrete
    round-trip input. -/
theorem C8_witness :
    MonthlyTotal.mk 2025 1 150 ∈
        parse_time_series_expenses "2025-01-15 $100.00\n2025-01-20 $50.00" ∧
      (MonthlyTotal.mk 2025 1 150).amount =
        entryAmount 2025 1
          (extractEntries "2025-01-15 $100.00\n2025-01-20 $50.00") := by
  have h := C8_roundtrip
  have hmem : MonthlyTotal.mk 2025 1 150 ∈
      parse_time_series_expenses "2025-01-15 $100.00\n2025-01-20 $50.00" := by
    rw [h.1.1]
    exact List.mem_cons_self _ _
  exact ⟨hmem, h.2.2.1 "2025-01-15 $100.00\n2025-01-20 $50.00" _ hmem⟩

/-- C10: every extracted amount is non-negative (the pattern admits no
    sign), hence every aggregated monthly amount — and so every
    previous-month amount the trend percent divides by when the series
    comes from this pipeline — is non-negative. -/
theorem C10_nonneg (text : String) :
    (∀ e ∈ extractEntries text, 0 ≤ e.amount) ∧
      (∀ t ∈ parse_time_series_expenses text, 0 ≤ t.amount) ∧
      (∀ p ∈ toSeries (parse_time_series_expenses text), 0 ≤ p.2) := by
  refine ⟨extractEntries_nonneg text, ?_, ?_⟩
  · exact aggregate_nonneg _ (extractEntries_nonneg text)
  · intro p hp
    obtain ⟨t, ht, hpt⟩ := List.mem_map.mp hp
    rw [← hpt]
    exact aggregate_nonneg _ (extractEntries_nonneg text) t ht

/-- C10 witness: non-negativity at a concrete extracted entry. -/
theorem C10_witness :
    ∀ t ∈ parse_time_series_expenses "2025-01-15 $5", 0 ≤ t.amount :=
  (C10_nonneg "2025-01-15 $5").2.1

/-! ### Trend analysis lemmas and claims -/

theorem trendMessages_eq_zip : ∀ df : List (String × ℚ),
    trendMessages df =
      (df.zip df.tail).map fun pc => trendMessage pc.1.1 pc.1.2 pc.2.1 pc.2.2
  | [] => rfl
  | [(_, _)] => rfl
  | (pm, pa) :: (cm, ca) :: rest => by
    rw [show trendMessages ((pm, pa) :: (cm, ca) :: rest) =
          trendMessage pm pa cm ca :: trendMessages ((cm, ca) :: rest) from rfl]
    rw [trendMessages_eq_zip ((cm, ca) :: rest)]
    rfl

/-- C3 counterexample: the flat-change message does not name the magnitude
    or the percentage at all — for a pair of equal totals the only rendered
    message contains neither a percent sign nor the formatted zero value. -/
theorem C3_counterexample :
    (show_expense_trend_analysis [("2025-01", 100), ("2025-02", 100)]).2 =
        ["➡️ 2025-02: No change compared to 2025-01"] ∧
      hasSub ("➡️ 2025-02: No change compared to 2025-01".toList) ['%'] = false ∧
      hasSub ("➡️ 2025-02: No change compared to 2025-01".toList)
        ("0.00".toList) = false := by
  refine ⟨?_, by decide, by decide⟩
  norm_num [show_expense_trend_analysis, trendMessages, trendMessage, percentOf]
  decide

/-- C3 (amended): fewer than 2 rows yields the single "not enough data"
    warning and no trend entries; otherwise exactly n−1 messages are
    produced, one per consecutive pair in chronological order; increase and
    decrease messages name the current month, magnitude, percentage and
    prior month, while an unchanged pair renders a "No change" message
    naming only the two months. -/
theorem C3_trend :
    (∀ df : List (String × ℚ), df.length < 2 →
      show_expense_trend_analysis df =
        (some "Not enough data to determine trends.", [])) ∧
      (∀ df : List (String × ℚ), 2 ≤ df.length →
        (show_expense_trend_analysis df).1 = none ∧
        (show_expense_trend_analysis df).2 =
          (df.zip df.tail).map (fun pc => trendMessage pc.1.1 pc.1.2 pc.2.1 pc.2.2) ∧
        (show_expense_trend_analysis df).2.length = df.length - 1) ∧
      show_expense_trend_analysis [("2025-01", 100), ("2025-02", 150), ("2025-03", 150)] =
        (none, ["📈 2025-02: Increase of ₹50.00 (50.00%) compared to 2025-01",
                "➡️ 2025-03: No change compared to 2025-02"]) := by
  refine ⟨fun df h => ?_, fun df h => ⟨?_, ?_, ?_⟩, ?_⟩
  · unfold show_expense_trend_analysis
    rw [if_pos h]
  · unfold show_expense_trend_analysis
    rw [if_neg (by omega)]
  · unfold show_expense_trend_analysis
    rw [if_neg (by omega)]
    exact trendMessages_eq_zip df
  · unfold show_expense_trend_analysis
    rw [if_neg (by omega)]
    rw [trendMessages_eq_zip df]
    simp [List.length_zip, List.length_tail]
  · norm_num [show_expense_trend_analysis, trendMessages, trendMessage,
      percentOf, fmt2, rhe, pad2]
    constructor
    · decide
    · decide

/-- C3 witness: the warning case and the no-warning case at concrete
    series. -/
theorem C3_witness :
    show_expense_trend_analysis ([] : List (String × ℚ)) =
        (some "Not enough data to determine trends.", []) ∧
      (show_expense_trend_analysis [("2025-01", (100 : ℚ)), ("2025-02", 150)]).1 =
        none :=
  ⟨C3_trend.1 [] (by decide),
   (C3_trend.2.1 [("2025-01", (100 : ℚ)), ("2025-02", 150)] (by decide)).1⟩

/-- C4: when the previous month's amount is 0, the percent for that
    consecutive pair is defined to be 0 — the guarded computation of
    app.py line 81 is total on every series. -/
theorem C4_zero_base (df : List (String × ℚ)) (i : ℕ) (h : i + 1 < df.length)
    (hz : (df.get ⟨i, Nat.lt_of_succ_lt h⟩).2 = 0) :
    percentOf (df.get ⟨i, Nat.lt_of_succ_lt h⟩).2
      ((df.get ⟨i + 1, h⟩).2 - (df.get ⟨i, Nat.lt_of_succ_lt h⟩).2) = 0 := by
  rw [hz]
  simp [percentOf]

/-- C4 witness: a zero-amount first month in a concrete series. -/
theorem C4_witness :
    percentOf (([("2025-01", (0 : ℚ)), ("2025-02", 5)].get ⟨0, by decide⟩).2)
      ((([("2025-01", (0 : ℚ)), ("2025-02", 5)].get ⟨1, by decide⟩).2) -
        (([("2025-01", (0 : ℚ)), ("2025-02", 5)].get ⟨0, by decide⟩).2)) = 0 :=
  C4_zero_base [("2025-01", (0 : ℚ)), ("2025-02", 5)] 0 (by decide) rfl

/-- C2 witness: the prefix-shape characterisation applied to a concrete
    line with trailing text. -/
theorem C2_witness :
    (matchShape ("2025-01-15 $100.00 extra".toList)).isSome = true ∧
      PrefixShape ("2025-01-15 $100.00 extra".toList) :=
  ⟨by decide, (C2_prefix_extraction.1 ("2025-01-15 $100.00 extra".toList)).mp (by decide)⟩

end InvoiceApp
